import Mathlib

/-!
Verification of the job-posting extraction pipeline
(`scraping_script.py`, `dags/scripts/data_enrichment.py`) against its
natural-language specification.  Python strings are embedded as `List Char`;
Python's regular-expression fragments actually used by the code are embedded
as a small executable pattern language.
-/

set_option maxRecDepth 10000

namespace JobPipeline

/-- Python word character (`\w`, ASCII fragment): letter, digit or underscore. -/
def isWordChar (c : Char) : Bool :=
  c.isAlpha || c.isDigit || c = '_'

/-- Python whitespace (`\s`, ASCII fragment). -/
def pyIsWs (c : Char) : Bool :=
  c = ' ' || c = '\t' || c = '\n' || c = '\r' || c = '\x0b' || c = '\x0c'

/-- Python `str.lower()` on the embedded alphabet. -/
def pyLower (s : List Char) : List Char :=
  s.map Char.toLower

/-- Python `str.strip()` (whitespace strip at both ends). -/
def pyStrip (s : List Char) : List Char :=
  ((s.dropWhile pyIsWs).reverse.dropWhile pyIsWs).reverse

/-- Python `str.strip(chars)` with an explicit strip set. -/
def pyStripSet (cs : List Char) (s : List Char) : List Char :=
  ((s.dropWhile (cs.contains ·)).reverse.dropWhile (cs.contains ·)).reverse

/-- Python substring containment (`needle in hay`). -/
def containsSub (needle hay : List Char) : Bool :=
  (List.range (hay.length + 1)).any (fun i => (hay.drop i).take needle.length == needle)

/-- Python `" ".join(blocks)`. -/
def joinSp (bs : List (List Char)) : List Char :=
  List.intercalate [' '] bs

/-- Convenience: the characters of a string literal. -/
def chars (s : String) : List Char :=
  s.toList

/-! ## Skill denylist filter (`data_enrichment.should_remove`, lines 9-27) -/

/-- The static denylist `BLACKLIST` from `should_remove`. -/
def BLACKLIST : List (List Char) :=
  [chars "e (programming language)", chars "library for www in perl",
   chars "component object model (com)", chars "hostile work environment",
   chars "sage safe x3", chars "inquiry", chars "workflows", chars "flooring",
   chars "target 3001!"]

/-- `should_remove(skill_name, desc)` from `data_enrichment.py`: drop a candidate
skill whose lower-cased stripped name is denylisted, is an ambiguous one-letter
name without a disambiguating context phrase, or is at most two characters. -/
def should_remove (skill_name desc : List Char) : Bool :=
  let s := pyStrip (pyLower skill_name)
  if BLACKLIST.contains s then true
  else if s = chars "r" || s = chars "c" then
    let context := pyLower desc
    if s = chars "r" &&
        (containsSub (chars "r programming") context || containsSub (chars "rstudio") context) then
      false
    else if s = chars "c" &&
        (containsSub (chars "c programming") context || containsSub (chars "embedded c") context ||
         containsSub (chars "c++") context) then
      false
    else true
  else if s.length ≤ 2 then true
  else false

/-- Dropping a prefix never lengthens a list. -/
theorem length_dropWhile_le' (p : Char → Bool) (l : List Char) :
    (l.dropWhile p).length ≤ l.length := by
  induction l with
  | nil => simp [List.dropWhile]
  | cons a l ih =>
    simp only [List.dropWhile]
    split
    · exact Nat.le_succ_of_le ih
    · simp

/-- Stripping never lengthens a list. -/
theorem pyStrip_length_le (s : List Char) : (pyStrip s).length ≤ s.length := by
  unfold pyStrip
  calc ((s.dropWhile pyIsWs).reverse.dropWhile pyIsWs).reverse.length
      = ((s.dropWhile pyIsWs).reverse.dropWhile pyIsWs).length := by
        rw [List.length_reverse]
    _ ≤ (s.dropWhile pyIsWs).reverse.length := length_dropWhile_le' _ _
    _ = (s.dropWhile pyIsWs).length := by rw [List.length_reverse]
    _ ≤ s.length := length_dropWhile_le' _ _

/-- Every denylist entry is already stripped. -/
theorem blacklist_strip_fixed : ∀ e ∈ BLACKLIST, pyStrip e = e := by decide

/-- `should_remove` is true as soon as the stripped lower-cased name is denylisted. -/
theorem should_remove_of_blacklisted (name desc : List Char)
    (h : BLACKLIST.contains (pyStrip (pyLower name)) = true) :
    should_remove name desc = true := by
  have hmem : pyStrip (pyLower name) ∈ BLACKLIST := List.elem_iff.mp h
  unfold should_remove
  simp [hmem]

/-- Evaluated form of `should_remove` on the ambiguous name `"r"`. -/
theorem should_remove_r (desc : List Char) :
    should_remove (chars "r") desc =
      !(containsSub (chars "r programming") (pyLower desc) ||
        containsSub (chars "rstudio") (pyLower desc)) := by
  have e1 : pyStrip (pyLower (chars "r")) = chars "r" := by decide
  have e2 : chars "r" ∉ BLACKLIST := by decide
  have e3 : chars "r" ≠ chars "c" := by decide
  unfold should_remove
  cases h1 : containsSub (chars "r programming") (pyLower desc) <;>
    cases h2 : containsSub (chars "rstudio") (pyLower desc) <;>
      simp [h1, h2, e1, e2, e3]

/-- Evaluated form of `should_remove` on the ambiguous name `"c"`. -/
theorem should_remove_c (desc : List Char) :
    should_remove (chars "c") desc =
      !(containsSub (chars "c programming") (pyLower desc) ||
        containsSub (chars "embedded c") (pyLower desc) ||
        containsSub (chars "c++") (pyLower desc)) := by
  have e1 : pyStrip (pyLower (chars "c")) = chars "c" := by decide
  have e2 : chars "c" ∉ BLACKLIST := by decide
  have e3 : chars "c" ≠ chars "r" := by decide
  unfold should_remove
  cases h1 : containsSub (chars "c programming") (pyLower desc) <;>
    cases h2 : containsSub (chars "embedded c") (pyLower desc) <;>
      cases h3 : containsSub (chars "c++") (pyLower desc) <;>
        simp [h1, h2, h3, e1, e2, e3]

/-- C3: a candidate skill whose lower-cased name is denylisted is always removed;
the name "r" is kept iff the document contains "r programming" or "rstudio"
(case-insensitive); the name "c" is kept iff the document contains
"c programming", "embedded c" or "c++"; and any other name of length at most
two characters is removed. -/
theorem C3_skill_denylist_filter (name desc : List Char) :
    (BLACKLIST.contains (pyLower name) = true → should_remove name desc = true)
    ∧ (should_remove (chars "r") desc = false ↔
        (containsSub (chars "r programming") (pyLower desc) = true ∨
         containsSub (chars "rstudio") (pyLower desc) = true))
    ∧ (should_remove (chars "c") desc = false ↔
        (containsSub (chars "c programming") (pyLower desc) = true ∨
         containsSub (chars "embedded c") (pyLower desc) = true ∨
         containsSub (chars "c++") (pyLower desc) = true))
    ∧ (BLACKLIST.contains (pyStrip (pyLower name)) = false →
       pyStrip (pyLower name) ≠ chars "r" → pyStrip (pyLower name) ≠ chars "c" →
       name.length ≤ 2 → should_remove name desc = true) := by
  refine ⟨?_, ?_, ?_, ?_⟩
  · intro h
    have hmem : pyLower name ∈ BLACKLIST := List.elem_iff.mp h
    have hfix : pyStrip (pyLower name) = pyLower name := blacklist_strip_fixed _ hmem
    apply should_remove_of_blacklisted
    rw [hfix]
    exact h
  · rw [should_remove_r]
    cases h1 : containsSub (chars "r programming") (pyLower desc) <;>
      cases h2 : containsSub (chars "rstudio") (pyLower desc) <;> simp
  · rw [should_remove_c]
    cases h1 : containsSub (chars "c programming") (pyLower desc) <;>
      cases h2 : containsSub (chars "embedded c") (pyLower desc) <;>
        cases h3 : containsSub (chars "c++") (pyLower desc) <;> simp
  · intro hbl hr hc hlen
    have hslen : (pyStrip (pyLower name)).length ≤ 2 := by
      calc (pyStrip (pyLower name)).length ≤ (pyLower name).length := pyStrip_length_le _
        _ = name.length := by simp [pyLower]
        _ ≤ 2 := hlen
    have hbl' : pyStrip (pyLower name) ∉ BLACKLIST := by
      intro hm
      have h2 : List.elem (pyStrip (pyLower name)) BLACKLIST = false := hbl
      rw [List.elem_iff.mpr hm] at h2
      exact absurd h2 (by decide)
    unfold should_remove
    simp [hbl', hr, hc, hslen]

/-- Witness for C3 at concrete inputs: "Inquiry" is always removed, "r" is kept
exactly in an RStudio context, and the short name "go" is removed. -/
theorem C3_skill_denylist_filter_witness :
    should_remove (chars "Inquiry") (chars "an inquiry-heavy role") = true
    ∧ should_remove (chars "r") (chars "we use RStudio daily") = false
    ∧ should_remove (chars "go") (chars "golang shop") = true := by
  refine ⟨?_, ?_, ?_⟩
  · exact (C3_skill_denylist_filter (chars "Inquiry") (chars "an inquiry-heavy role")).1 (by decide)
  · exact ((C3_skill_denylist_filter (chars "x") (chars "we use RStudio daily")).2.1).mpr
      (Or.inr (by decide))
  · exact (C3_skill_denylist_filter (chars "go") (chars "golang shop")).2.2.2
      (by decide) (by decide) (by decide) (by decide)

/-! ## Dedup store upsert (`data_enrichment.main_enrichment`, lines 100-121) -/

/-- A stored row of `raw_job_postings`: the unique `job_link` key plus the
remaining column values. -/
structure JobRow where
  job_link : List Char
  fields : List (List Char)
deriving DecidableEq

/-- The key column of an incoming batch (`SELECT job_link FROM raw_df`). -/
def batchKeys (batch : List JobRow) : List (List Char) :=
  batch.map JobRow.job_link

/-- The delete-then-insert upsert of `main_enrichment`: delete every stored row
whose `job_link` occurs among the batch keys, then insert the full batch. -/
def upsert_raw_job_postings (store batch : List JobRow) : List JobRow :=
  store.filter (fun r => !(batchKeys batch).contains r.job_link) ++ batch

/-- One ingestion cycle: create the table from the batch when it does not exist,
otherwise run the delete-then-insert upsert. -/
def ingest (store : Option (List JobRow)) (batch : List JobRow) : List JobRow :=
  match store with
  | none => batch
  | some s => upsert_raw_job_postings s batch

/-- Every batch row key is a batch key. -/
theorem batch_filter_keys_nil (batch : List JobRow) :
    batch.filter (fun r => !(batchKeys batch).contains r.job_link) = [] := by
  apply List.filter_eq_nil_iff.mpr
  intro r hr
  simp [batchKeys, List.elem_iff]
  exact ⟨r, hr, rfl⟩

/-- Filtering a nodup-keyed batch by the key of one of its rows isolates that row. -/
theorem batch_filter_key_singleton (batch : List JobRow)
    (hnodup : (batchKeys batch).Nodup) (kv : JobRow) (hmem : kv ∈ batch) :
    batch.filter (fun r => r.job_link == kv.job_link) = [kv] := by
  induction batch with
  | nil => cases hmem
  | cons b bs ih =>
    simp only [batchKeys, List.map_cons, List.nodup_cons] at hnodup
    obtain ⟨hb, hnd⟩ := hnodup
    rcases List.mem_cons.mp hmem with h | h
    · rw [h]
      rw [List.filter_cons_of_pos (by simp)]
      have hnil : bs.filter (fun r => r.job_link == b.job_link) = [] := by
        apply List.filter_eq_nil_iff.mpr
        intro a ha
        simp only [beq_iff_eq]
        intro he
        exact hb (he ▸ List.mem_map_of_mem _ ha)
      rw [hnil]
    · have hbk : (b.job_link == kv.job_link) = false := by
        simp only [beq_eq_false_iff_ne, ne_eq]
        intro he
        exact hb (he ▸ List.mem_map_of_mem _ h)
      rw [List.filter_cons_of_neg (by simp [hbk])]
      exact ih hnd h

/-- C2: after an upsert of a batch with pairwise-distinct keys, the store holds
exactly one row per batch key carrying that batch's values, rows with other
keys are untouched, and ingesting the same batch twice equals ingesting it
once (idempotent final state), on both the create and the upsert path. -/
theorem C2_upsert_replaces_and_is_idempotent (store batch : List JobRow)
    (hnodup : (batchKeys batch).Nodup) :
    (∀ kv ∈ batch,
      (upsert_raw_job_postings store batch).filter (fun r => r.job_link == kv.job_link) = [kv])
    ∧ (∀ k, k ∉ batchKeys batch →
        (upsert_raw_job_postings store batch).filter (fun r => r.job_link == k) =
          store.filter (fun r => r.job_link == k))
    ∧ (∀ st : Option (List JobRow), ingest (some (ingest st batch)) batch = ingest st batch) := by
  refine ⟨?_, ?_, ?_⟩
  · intro kv hkv
    unfold upsert_raw_job_postings
    rw [List.filter_append]
    have hleft : (store.filter (fun r => !(batchKeys batch).contains r.job_link)).filter
        (fun r => r.job_link == kv.job_link) = [] := by
      apply List.filter_eq_nil_iff.mpr
      intro a ha
      have ha1 : (!(batchKeys batch).contains a.job_link) = true := (List.mem_filter.mp ha).2
      simp only [beq_iff_eq]
      intro he
      have : (batchKeys batch).contains a.job_link = true := by
        rw [he]
        exact List.elem_iff.mpr (List.mem_map_of_mem _ hkv)
      rw [this] at ha1
      exact absurd ha1 (by decide)
    rw [hleft, List.nil_append]
    exact batch_filter_key_singleton batch hnodup kv hkv
  · intro k hk
    unfold upsert_raw_job_postings
    rw [List.filter_append]
    have hright : batch.filter (fun r => r.job_link == k) = [] := by
      apply List.filter_eq_nil_iff.mpr
      intro a ha
      simp only [beq_iff_eq]
      intro he
      exact hk (he ▸ List.mem_map_of_mem _ ha)
    rw [hright, List.append_nil, List.filter_filter]
    apply List.filter_congr
    intro a ha
    by_cases hak : a.job_link = k
    · have hc : (batchKeys batch).contains a.job_link = false := by
        cases hc2 : (batchKeys batch).contains a.job_link
        · rfl
        · exact absurd (hak ▸ List.elem_iff.mp hc2) hk
      simp [hc, hak, hk]
    · simp [hak]
  · intro st
    match st with
    | none =>
      show upsert_raw_job_postings batch batch = batch
      unfold upsert_raw_job_postings
      rw [batch_filter_keys_nil, List.nil_append]
    | some s =>
      show upsert_raw_job_postings (upsert_raw_job_postings s batch) batch =
        upsert_raw_job_postings s batch
      unfold upsert_raw_job_postings
      rw [List.filter_append, batch_filter_keys_nil, List.append_nil, List.filter_filter]
      congr 1
      apply List.filter_congr
      intro a ha
      cases hc : (batchKeys batch).contains a.job_link <;> simp [hc]

/-- Witness for C2 at a concrete store and two-row batch. -/
theorem C2_upsert_replaces_and_is_idempotent_witness :
    ((batchKeys [⟨chars "l1", [chars "new1"]⟩, ⟨chars "l2", [chars "new2"]⟩]).Nodup)
    ∧ (upsert_raw_job_postings
         [⟨chars "l1", [chars "old1"]⟩, ⟨chars "l3", [chars "old3"]⟩]
         [⟨chars "l1", [chars "new1"]⟩, ⟨chars "l2", [chars "new2"]⟩]).filter
        (fun r => r.job_link == chars "l1") = [⟨chars "l1", [chars "new1"]⟩] := by
  constructor
  · decide
  · exact (C2_upsert_replaces_and_is_idempotent
      [⟨chars "l1", [chars "old1"]⟩, ⟨chars "l3", [chars "old3"]⟩]
      [⟨chars "l1", [chars "new1"]⟩, ⟨chars "l2", [chars "new2"]⟩] (by decide)).1
      ⟨chars "l1", [chars "new1"]⟩ (by decide)

/-! ## A small evaluator for the regular-expression fragment used by the code

The Python code uses patterns built only from case-insensitive literals,
alternation, optional groups, `\s+`, `\s*`, `.{lo,hi}`, `.*`, `\b` and `$`.
`reEnds t r i` returns the possible end positions of a match of `r` starting
at position `i` of `t`, in Python's backtracking order (first element =
the end position Python's `match.end()` reports). -/
inductive RE : Type
  | eps : RE
  | lit : List Char → RE
  | seq : RE → RE → RE
  | alt : RE → RE → RE
  | opt : RE → RE
  | wsPlus : RE
  | wsStar : RE
  | dotRange : Nat → Nat → RE
  | dotStar : RE
  | wordB : RE
  | eol : RE

/-- Alternation of a list of patterns, in order (`'|'.join(patterns)`). -/
def altN : List RE → RE
  | [] => RE.lit ['\x00']
  | [r] => r
  | r :: rs => RE.alt r (altN rs)

/-- Sequencing of a list of patterns. -/
def seqN : List RE → RE
  | [] => RE.eps
  | [r] => r
  | r :: rs => RE.seq r (seqN rs)

/-- A `\b` word boundary at position `i` of `t`. -/
def isBoundary (t : List Char) (i : Nat) : Bool :=
  let before := decide (0 < i) && isWordChar (t.getD (i - 1) ' ')
  let after := decide (i < t.length) && isWordChar (t.getD i ' ')
  before != after

/-- Length of the whitespace run of `t` starting at `i`. -/
def wsRun (t : List Char) (i : Nat) : Nat :=
  ((t.drop i).takeWhile pyIsWs).length

/-- Length of the newline-free run of `t` starting at `i` (what `.` may cross). -/
def dotRun (t : List Char) (i : Nat) : Nat :=
  ((t.drop i).takeWhile (fun c => c ≠ '\n')).length

/-- End positions (in backtracking priority order) of matches of `r` in `t`
starting at `i`.  Literals compare case-insensitively (`re.I`): the stored
literal is lower-case and the text is lowered position-wise. -/
def reEnds (t : List Char) : RE → Nat → List Nat
  | RE.eps, i => [i]
  | RE.lit s, i =>
      if decide (i + s.length ≤ t.length) && (pyLower ((t.drop i).take s.length) == s) then
        [i + s.length]
      else []
  | RE.seq a b, i => ((reEnds t a i).map (reEnds t b)).flatten
  | RE.alt a b, i => reEnds t a i ++ reEnds t b i
  | RE.opt a, i => reEnds t a i ++ [i]
  | RE.wsPlus, i => ((List.range (wsRun t i)).reverse).map (fun k => i + k + 1)
  | RE.wsStar, i => ((List.range (wsRun t i + 1)).reverse).map (fun k => i + k)
  | RE.dotRange lo hi, i =>
      (((List.range (min hi (dotRun t i) + 1)).reverse).filter (fun k => lo ≤ k)).map (fun k => i + k)
  | RE.dotStar, i => ((List.range (dotRun t i + 1)).reverse).map (fun k => i + k)
  | RE.wordB, i => if isBoundary t i then [i] else []
  | RE.eol, i => if i = t.length then [i] else []

/-- `re.search` for a pattern whose alternatives are all anchored with `^`
(no `re.M`): the pattern can only match at position 0. -/
def reTest0 (r : RE) (t : List Char) : Bool :=
  !(reEnds t r 0).isEmpty

/-- `match.end()` of the leftmost match of an anchored pattern, if any. -/
def reMatchEnd0 (r : RE) (t : List Char) : Option Nat :=
  (reEnds t r 0).head?

/-- Unanchored `re.search` over a lower-cased text: does the pattern match
starting at any position? -/
def reSearch (r : RE) (t : List Char) : Bool :=
  (List.range (t.length + 1)).any (fun i => !(reEnds t r i).isEmpty)

/-- Shorthand for a `\b`-delimited literal such as `r'\bremote\b'`. -/
def wlit (s : String) : RE :=
  seqN [RE.wordB, RE.lit (chars s), RE.wordB]

/-- Shorthand for `r'\bA.*B\b'` (boundaries only at the outer ends). -/
def wgap (a b : String) : RE :=
  seqN [RE.wordB, RE.lit (chars a), RE.dotStar, RE.lit (chars b), RE.wordB]

/-- Shorthand for `r'\bA\b.*\bB\b'` (boundaries at all four literal ends). -/
def wgapB (a b : String) : RE :=
  seqN [RE.wordB, RE.lit (chars a), RE.wordB, RE.dotStar, RE.wordB, RE.lit (chars b), RE.wordB]

/-! ## Flexibility classifier (`scraping_script.detect_job_flexibility`, lines 38-97) -/

/-- `remote_patterns` from `detect_job_flexibility`. -/
def remote_patterns : List RE :=
  [wlit "remote", wlit "work from home", wlit "wfh", wlit "home office",
   wlit "distributed team", wlit "fully remote", wlit "100% remote",
   wgapB "anywhere" "world", wlit "location independent",
   wlit "remote work", wlit "remote position", wlit "remote role",
   wlit "remote opportunity", wlit "remotely", wlit "from home"]

/-- `hybrid_patterns` from `detect_job_flexibility`. -/
def hybrid_patterns : List RE :=
  [wlit "hybrid", wlit "flexible work", wgapB "flex" "schedule",
   wgap "work from home" "days", wgap "remote" "days", wgap "office" "days",
   wgapB "mixed" "remote", wgap "part" "remote", wlit "partly remote",
   wlit "flexible location", wlit "hybrid model", wlit "hybrid work",
   wgap "remote" "office", wgap "office" "remote", wlit "blended work"]

/-- `onsite_patterns` from `detect_job_flexibility`. -/
def onsite_patterns : List RE :=
  [wlit "on-site", wlit "onsite", wlit "in-office", wlit "office based",
   wlit "office location", wlit "must be located", wlit "local candidate",
   wlit "in person", wlit "physical presence", wlit "commute",
   wlit "relocate", wlit "office environment", wgap "full" "office",
   wlit "100% office", wlit "fully onsite"]

/-- Number of remote patterns found in the (lower-cased) text. -/
def remote_score (t : List Char) : Nat :=
  remote_patterns.countP (fun p => reSearch p t)

/-- Number of hybrid patterns found in the (lower-cased) text. -/
def hybrid_score (t : List Char) : Nat :=
  hybrid_patterns.countP (fun p => reSearch p t)

/-- Number of on-site patterns found in the (lower-cased) text. -/
def onsite_score (t : List Char) : Nat :=
  onsite_patterns.countP (fun p => reSearch p t)

/-- `detect_job_flexibility(text_content)` from `scraping_script.py`. -/
def detect_job_flexibility (text_content : String) : String :=
  if text_content = "" then "UNDEFINED"
  else
    let text_lower := pyLower text_content.toList
    let r := remote_score text_lower
    let h := hybrid_score text_lower
    let o := onsite_score text_lower
    if r > h ∧ r > o then "Remote"
    else if h > r ∧ h > o then "Hybrid"
    else if o > r ∧ o > h then "On-site"
    else if r > 0 ∧ h > 0 then "Hybrid"
    else if r > 0 then "Remote"
    else if h > 0 then "Hybrid"
    else if o > 0 then "On-site"
    else "UNDEFINED"

/-- The decision rule exactly as the claim words it ("only remote is nonzero",
"hybrid alone", "on-site alone"), over the three family scores.  The label
`Undefined` is realised by the code's string "UNDEFINED". -/
def flexibility_rule_claim (r h o : Nat) : String :=
  if r > h ∧ r > o then "Remote"
  else if h > r ∧ h > o then "Hybrid"
  else if o > r ∧ o > h then "On-site"
  else if r ≠ 0 ∧ h ≠ 0 then "Hybrid"
  else if r ≠ 0 ∧ h = 0 ∧ o = 0 then "Remote"
  else if h ≠ 0 ∧ r = 0 ∧ o = 0 then "Hybrid"
  else if o ≠ 0 ∧ r = 0 ∧ h = 0 then "On-site"
  else "UNDEFINED"

/-- The amended decision rule: the later tie-break branches test only that the
family's own score is nonzero (no "alone" requirement). -/
def flexibility_rule (r h o : Nat) : String :=
  if r > h ∧ r > o then "Remote"
  else if h > r ∧ h > o then "Hybrid"
  else if o > r ∧ o > h then "On-site"
  else if r > 0 ∧ h > 0 then "Hybrid"
  else if r > 0 then "Remote"
  else if h > 0 then "Hybrid"
  else if o > 0 then "On-site"
  else "UNDEFINED"

/-- C1 counterexample: on "remotely commute" the remote and on-site scores are
both 1 (no family strictly dominates, remote is not the only nonzero family),
so the claim's rule yields "UNDEFINED", but the code returns "Remote"; and on
"hybrid remotely commute relocate" the remote and hybrid scores are equal and
nonzero yet the code returns "On-site", not "Hybrid". -/
theorem C1_flexibility_counterexample :
    detect_job_flexibility "remotely commute" = "Remote"
    ∧ remote_score (pyLower (chars "remotely commute")) = 1
    ∧ hybrid_score (pyLower (chars "remotely commute")) = 0
    ∧ onsite_score (pyLower (chars "remotely commute")) = 1
    ∧ flexibility_rule_claim 1 0 1 = "UNDEFINED"
    ∧ detect_job_flexibility "hybrid remotely commute relocate" = "On-site"
    ∧ remote_score (pyLower (chars "hybrid remotely commute relocate")) = 1
    ∧ hybrid_score (pyLower (chars "hybrid remotely commute relocate")) = 1
    ∧ onsite_score (pyLower (chars "hybrid remotely commute relocate")) = 2 := by
  refine ⟨?_, ?_, ?_, ?_, ?_, ?_, ?_, ?_, ?_⟩ <;> decide

/-- C1 amended: the classifier equals the decision rule with the "alone"
qualifiers dropped (later branches test only the family's own score), and a
text with equal nonzero remote and hybrid scores classifies as Hybrid unless
the on-site score strictly exceeds them, in which case On-site. -/
theorem C1_flexibility_rule_amended (text_content : String) :
    detect_job_flexibility text_content =
      flexibility_rule (remote_score (pyLower text_content.toList))
        (hybrid_score (pyLower text_content.toList))
        (onsite_score (pyLower text_content.toList))
    ∧ (remote_score (pyLower text_content.toList) = hybrid_score (pyLower text_content.toList) →
       0 < remote_score (pyLower text_content.toList) →
       detect_job_flexibility text_content =
         (if onsite_score (pyLower text_content.toList) > remote_score (pyLower text_content.toList)
          then "On-site" else "Hybrid")) := by
  have hmain : detect_job_flexibility text_content =
      flexibility_rule (remote_score (pyLower text_content.toList))
        (hybrid_score (pyLower text_content.toList))
        (onsite_score (pyLower text_content.toList)) := by
    by_cases he : text_content = ""
    · subst he
      decide
    · unfold detect_job_flexibility flexibility_rule
      rw [if_neg he]
  refine ⟨hmain, ?_⟩
  intro heq hpos
  rw [hmain]
  unfold flexibility_rule
  rcases Nat.lt_or_ge (remote_score (pyLower text_content.toList))
      (onsite_score (pyLower text_content.toList)) with hlt | hge
  · rw [if_neg (by omega), if_neg (by omega), if_pos (by omega), if_pos (by omega)]
  · rw [if_neg (by omega), if_neg (by omega), if_neg (by omega), if_pos (by omega),
      if_neg (by omega)]

/-- Witness for the amended C1 at "hybrid remotely" (scores 1, 1, 0): the
equal-and-nonzero tie yields Hybrid. -/
theorem C1_flexibility_rule_amended_witness :
    detect_job_flexibility "hybrid remotely" = "Hybrid" := by
  have h := (C1_flexibility_rule_amended "hybrid remotely").2 (by decide) (by decide)
  rw [h]
  decide

/-! ## Block segmenter (`extract_job_sections_improved`, lines 110-126) -/

/-- Fuelled worker for the blank-line split (structural recursion so that the
kernel can evaluate it; the fuel is always instantiated with the input length,
which the recursion never exceeds). -/
def splitBlankF : Nat → List Char → List (List Char)
  | _, [] => [[]]
  | 0, t => [t]
  | fuel+1, c :: rest =>
    if c = '\n' ∧ rest.headD 'x' = '\n' then
      [] :: splitBlankF fuel (rest.dropWhile (fun d => d = '\n'))
    else
      match splitBlankF fuel rest with
      | [] => [[c]]
      | s :: ss => (c :: s) :: ss

/-- Python `re.split(r'\n{2,}', t)`: split at each maximal run of two or more
newlines; single newlines stay inside the segments. -/
def splitBlank (t : List Char) : List (List Char) :=
  splitBlankF t.length t

/-- Python `t.split('\n')`: split at every newline. -/
def splitNl : List Char → List (List Char)
  | [] => [[]]
  | c :: rest =>
    if c = '\n' then [] :: splitNl rest
    else
      match splitNl rest with
      | [] => [[c]]
      | s :: ss => (c :: s) :: ss

/-- Fuelled worker for whitespace collapsing. -/
def collapseWsF : Nat → List Char → List Char
  | _, [] => []
  | 0, t => t
  | fuel+1, c :: rest =>
    if pyIsWs c then ' ' :: collapseWsF fuel (rest.dropWhile pyIsWs)
    else c :: collapseWsF fuel rest

/-- Python `re.sub(r'\s+', ' ', b)`: collapse each maximal whitespace run to a
single space. -/
def collapseWs (t : List Char) : List Char :=
  collapseWsF t.length t

/-- The stripped nonempty segments of the primary (blank-line) split. -/
def primary_candidates (full_text : List Char) : List (List Char) :=
  ((splitBlank full_text).map pyStrip).filter (fun b => !b.isEmpty)

/-- The stripped nonempty segments of the fallback (single-newline) split. -/
def fallback_candidates (full_text : List Char) : List (List Char) :=
  ((splitNl full_text).map pyStrip).filter (fun b => !b.isEmpty)

/-- The block list built by `extract_job_sections_improved` (lines 110-126):
blank-line split, single-newline fallback when fewer than 5 blocks result,
keep blocks longer than 10 characters, collapse internal whitespace. -/
def make_blocks (full_text : List Char) : List (List Char) :=
  let initial :=
    if (primary_candidates full_text).length < 5 then fallback_candidates full_text
    else primary_candidates full_text
  (initial.filter (fun b => 10 < b.length)).map collapseWs

/-- Two adjacent newlines occur somewhere in the list. -/
def hasDoubleNl : List Char → Bool
  | c1 :: c2 :: rest => (c1 = '\n' && c2 = '\n') || hasDoubleNl (c2 :: rest)
  | _ => false

/-- `splitNl` always returns at least one segment. -/
theorem splitNl_ne_nil (t : List Char) : splitNl t ≠ [] := by
  cases t with
  | nil => simp [splitNl]
  | cons c rest =>
    unfold splitNl
    by_cases h : c = '\n'
    · rw [if_pos h]
      simp
    · rw [if_neg h]
      cases splitNl rest <;> simp

/-- `splitBlankF` always returns at least one segment. -/
theorem splitBlankF_ne_nil (fuel : Nat) (t : List Char) : splitBlankF fuel t ≠ [] := by
  cases t with
  | nil => simp [splitBlankF]
  | cons c rest =>
    cases fuel with
    | zero => simp [splitBlankF]
    | succ fuel =>
      unfold splitBlankF
      by_cases h : c = '\n' ∧ rest.headD 'x' = '\n'
      · rw [if_pos h]
        simp
      · rw [if_neg h]
        cases splitBlankF fuel rest <;> simp

/-- Segments of the single-newline split contain no newline. -/
theorem splitNl_no_newline (t : List Char) : ∀ b ∈ splitNl t, '\n' ∉ b := by
  induction t with
  | nil =>
    intro b hb
    simp [splitNl] at hb
    simp [hb]
  | cons c rest ih =>
    intro b hb
    unfold splitNl at hb
    by_cases h : c = '\n'
    · rw [if_pos h] at hb
      rcases List.mem_cons.mp hb with h1 | h1
      · simp [h1]
      · exact ih b h1
    · rw [if_neg h] at hb
      rcases hs : splitNl rest with _ | ⟨s, ss⟩
      · exact absurd hs (splitNl_ne_nil rest)
      · rw [hs] at hb
        rcases List.mem_cons.mp hb with h1 | h1
        · subst h1
          intro hmem
          rcases List.mem_cons.mp hmem with h2 | h2
          · exact h h2.symm
          · exact ih s (hs ▸ List.mem_cons_self s ss) h2
        · exact ih b (by rw [hs]; exact List.mem_cons_of_mem s h1)

/-- A nonempty head segment of `splitBlankF` starts with the first character of
the input. -/
theorem splitBlankF_head_cons (fuel : Nat) (rest : List Char) (s : List Char)
    (ss : List (List Char)) (heq : splitBlankF fuel rest = s :: ss) (hne : s ≠ []) :
    s.headD 'x' = rest.headD 'x' := by
  cases rest with
  | nil =>
    simp [splitBlankF] at heq
    exact absurd heq.1 hne
  | cons d r2 =>
    cases fuel with
    | zero =>
      simp [splitBlankF] at heq
      rw [← heq.1]
    | succ fuel =>
      unfold splitBlankF at heq
      by_cases h : d = '\n' ∧ r2.headD 'x' = '\n'
      · rw [if_pos h] at heq
        injection heq with h1 h2
        exact absurd h1.symm hne
      · rw [if_neg h] at heq
        rcases hs : splitBlankF fuel r2 with _ | ⟨s2, ss2⟩
        · rw [hs] at heq
          injection heq with h1 h2
          simp [← h1]
        · rw [hs] at heq
          injection heq with h1 h2
          simp [← h1]

/-- Segments of the blank-line split contain no two adjacent newlines: every
run of two or more newlines is consumed as a separator. -/
theorem splitBlankF_no_double (fuel : Nat) (t : List Char) (hlen : t.length ≤ fuel) :
    ∀ b ∈ splitBlankF fuel t, hasDoubleNl b = false := by
  induction fuel, t using splitBlankF.induct with
  | case1 x =>
    intro b hb
    simp [splitBlankF] at hb
    simp [hb, hasDoubleNl]
  | case2 t hne =>
    cases t with
    | nil => exact absurd rfl hne
    | cons c rest => simp at hlen
  | case3 fuel c rest h ih =>
    intro b hb
    unfold splitBlankF at hb
    rw [if_pos h] at hb
    have hlen2 : (rest.dropWhile (fun d => d = '\n')).length ≤ fuel := by
      have h1 := length_dropWhile_le' (fun d => decide (d = '\n')) rest
      simp only [List.length_cons] at hlen
      omega
    rcases List.mem_cons.mp hb with h1 | h1
    · simp [h1, hasDoubleNl]
    · exact ih hlen2 b h1
  | case4 fuel c rest h heq ih =>
    exact absurd heq (splitBlankF_ne_nil fuel rest)
  | case5 fuel c rest h s ss heq ih =>
    intro b hb
    have hlen2 : rest.length ≤ fuel := by
      simp only [List.length_cons] at hlen
      omega
    unfold splitBlankF at hb
    rw [if_neg h, heq] at hb
    rcases List.mem_cons.mp hb with h1 | h1
    · subst h1
      have hs : hasDoubleNl s = false := ih hlen2 s (heq ▸ List.mem_cons_self s ss)
      cases s with
      | nil => simp [hasDoubleNl]
      | cons d s2 =>
        have hd : d = rest.headD 'x' := by
          have := splitBlankF_head_cons fuel rest (d :: s2) ss heq (by simp)
          simpa using this
        simp only [hasDoubleNl, Bool.or_eq_false_iff]
        refine ⟨?_, hs⟩
        by_cases hc : c = '\n'
        · have hdn : ¬d = '\n' := fun hdd => h ⟨hc, by rw [← hd]; exact hdd⟩
          simp [hdn]
        · simp [hc]
    · exact ih hlen2 b (by rw [heq]; exact List.mem_cons_of_mem s h1)

/-- Segments of `splitBlank` contain no two adjacent newlines. -/
theorem splitBlank_no_double (t : List Char) :
    ∀ b ∈ splitBlank t, hasDoubleNl b = false :=
  splitBlankF_no_double t.length t (Nat.le_refl _)
/-- C7: the Block Segmenter first splits on blank-line boundaries; when that
yields fewer than the minimum threshold of 5 candidate blocks it splits on
single line breaks instead; only candidates longer than 10 characters are kept,
with whitespace runs collapsed; single-newline segments contain no line break,
blank-line segments contain no two adjacent line breaks, and equal inputs give
equal block sequences. -/
theorem C7_block_segmenter (t : List Char) :
    (5 ≤ (primary_candidates t).length →
      make_blocks t = ((primary_candidates t).filter (fun b => 10 < b.length)).map collapseWs)
    ∧ ((primary_candidates t).length < 5 →
      make_blocks t = ((fallback_candidates t).filter (fun b => 10 < b.length)).map collapseWs)
    ∧ (∀ b ∈ splitNl t, '\n' ∉ b)
    ∧ (∀ b ∈ splitBlank t, hasDoubleNl b = false)
    ∧ (∀ t2, t = t2 → make_blocks t = make_blocks t2) := by
  refine ⟨?_, ?_, splitNl_no_newline t, splitBlank_no_double t, ?_⟩
  · intro h
    unfold make_blocks
    rw [if_neg (Nat.not_lt.mpr h)]
  · intro h
    unfold make_blocks
    rw [if_pos h]
  · intro t2 h
    rw [h]

/-- Witness for C7 on a concrete two-segment document that triggers the
single-newline fallback. -/
theorem C7_block_segmenter_witness :
    make_blocks (chars "Hi there\n\nthis is a sufficiently long block") =
      ((fallback_candidates (chars "Hi there\n\nthis is a sufficiently long block")).filter
        (fun b => 10 < b.length)).map collapseWs := by
  exact (C7_block_segmenter (chars "Hi there\n\nthis is a sufficiently long block")).2.1 (by decide)

/-! ## Block partition invariant (C8) -/

/-- Interleave segments with separators:
`interleave [s1, s2, s3] [p1, p2] = s1 ++ p1 ++ s2 ++ p2 ++ s3`. -/
def interleave : List (List Char) → List (List Char) → List Char
  | [], _ => []
  | s :: ss, seps =>
    match seps with
    | [] => s
    | p :: ps => s ++ p ++ interleave ss ps

/-- The single-newline split reconstructs the document with single-newline
separators. -/
theorem splitNl_interleave (t : List Char) :
    ∃ seps, (∀ p ∈ seps, p = ['\n']) ∧ interleave (splitNl t) seps = t := by
  induction t with
  | nil => exact ⟨[], by simp, by simp [splitNl, interleave]⟩
  | cons c rest ih =>
    obtain ⟨seps, hsep, hjoin⟩ := ih
    by_cases h : c = '\n'
    · refine ⟨['\n'] :: seps, ?_, ?_⟩
      · intro p hp
        rcases List.mem_cons.mp hp with h1 | h1
        · exact h1
        · exact hsep p h1
      · unfold splitNl
        rw [if_pos h]
        rcases hs : splitNl rest with _ | ⟨s, ss⟩
        · exact absurd hs (splitNl_ne_nil rest)
        · rw [hs] at hjoin
          show [] ++ ['\n'] ++ interleave (s :: ss) seps = c :: rest
          rw [h]
          simp only [List.nil_append, List.singleton_append]
          rw [hjoin]
    · refine ⟨seps, hsep, ?_⟩
      unfold splitNl
      rw [if_neg h]
      rcases hs : splitNl rest with _ | ⟨s, ss⟩
      · exact absurd hs (splitNl_ne_nil rest)
      · rw [hs] at hjoin
        show interleave ((c :: s) :: ss) seps = c :: rest
        cases seps with
        | nil =>
          show c :: s = c :: rest
          have hj2 : s = rest := hjoin
          rw [hj2]
        | cons p ps =>
          show (c :: s) ++ p ++ interleave ss ps = c :: rest
          have hj2 : s ++ p ++ interleave ss ps = rest := hjoin
          rw [List.cons_append, List.cons_append, hj2]

/-- The blank-line split reconstructs the document with separators that are
runs of at least two newlines. -/
theorem splitBlankF_interleave (fuel : Nat) (t : List Char) (hlen : t.length ≤ fuel) :
    ∃ seps, (∀ p ∈ seps, 2 ≤ p.length ∧ ∀ c ∈ p, c = '\n')
      ∧ interleave (splitBlankF fuel t) seps = t := by
  induction fuel, t using splitBlankF.induct with
  | case1 x => exact ⟨[], by simp, by simp [splitBlankF, interleave]⟩
  | case2 t hne =>
    cases t with
    | nil => exact absurd rfl hne
    | cons c rest => simp at hlen
  | case3 fuel c rest h ih =>
    have hlen2 : (rest.dropWhile (fun d => d = '\n')).length ≤ fuel := by
      have h1 := length_dropWhile_le' (fun d => decide (d = '\n')) rest
      simp only [List.length_cons] at hlen
      omega
    obtain ⟨seps, hsep, hjoin⟩ := ih hlen2
    refine ⟨('\n' :: rest.takeWhile (fun d => d = '\n')) :: seps, ?_, ?_⟩
    · intro p hp
      rcases List.mem_cons.mp hp with h1 | h1
      · subst h1
        constructor
        · have hne2 : rest.takeWhile (fun d => d = '\n') ≠ [] := by
            cases rest with
            | nil => exact absurd h.2 (by decide)
            | cons d r2 =>
              have hd : d = '\n' := by simpa using h.2
              simp [List.takeWhile, hd]
          have := List.length_pos.mpr hne2
          simp only [List.length_cons]
          omega
        · intro x hx
          rcases List.mem_cons.mp hx with h2 | h2
          · exact h2
          · have := List.mem_takeWhile_imp (l := rest) (p := fun d => decide (d = '\n')) h2
            exact of_decide_eq_true this
      · exact hsep p h1
    · unfold splitBlankF
      rw [if_pos h]
      rcases hs : splitBlankF fuel (rest.dropWhile (fun d => d = '\n')) with _ | ⟨s, ss⟩
      · exact absurd hs (splitBlankF_ne_nil fuel _)
      · rw [hs] at hjoin
        show [] ++ ('\n' :: rest.takeWhile (fun d => d = '\n')) ++ interleave (s :: ss) seps =
          c :: rest
        simp only [List.nil_append, List.cons_append, List.append_assoc]
        rw [hjoin]
        rw [h.1, List.takeWhile_append_dropWhile]
  | case4 fuel c rest h heq ih =>
    exact absurd heq (splitBlankF_ne_nil fuel rest)
  | case5 fuel c rest h s ss heq ih =>
    have hlen2 : rest.length ≤ fuel := by
      simp only [List.length_cons] at hlen
      omega
    obtain ⟨seps, hsep, hjoin⟩ := ih hlen2
    rw [heq] at hjoin
    refine ⟨seps, hsep, ?_⟩
    unfold splitBlankF
    rw [if_neg h, heq]
    show interleave ((c :: s) :: ss) seps = c :: rest
    cases seps with
    | nil =>
      show c :: s = c :: rest
      have hj2 : s = rest := hjoin
      rw [hj2]
    | cons p ps =>
      show (c :: s) ++ p ++ interleave ss ps = c :: rest
      have hj2 : s ++ p ++ interleave ss ps = rest := hjoin
      rw [List.cons_append, List.cons_append, hj2]
/-- Stripping splits a list into whitespace, the stripped core, and whitespace. -/
theorem pyStrip_decomposition (s : List Char) :
    ∃ pre suf, (∀ c ∈ pre, pyIsWs c = true) ∧ (∀ c ∈ suf, pyIsWs c = true) ∧
      s = pre ++ pyStrip s ++ suf := by
  refine ⟨s.takeWhile pyIsWs, ((s.dropWhile pyIsWs).reverse.takeWhile pyIsWs).reverse,
    ?_, ?_, ?_⟩
  · intro c hc
    exact List.mem_takeWhile_imp hc
  · intro c hc
    rw [List.mem_reverse] at hc
    exact List.mem_takeWhile_imp hc
  · conv_lhs => rw [← List.takeWhile_append_dropWhile (p := pyIsWs) (l := s)]
    rw [List.append_assoc]
    congr 1
    conv_lhs => rw [← List.reverse_reverse (s.dropWhile pyIsWs),
      ← List.takeWhile_append_dropWhile (p := pyIsWs) (l := (s.dropWhile pyIsWs).reverse)]
    rw [List.reverse_append]
    unfold pyStrip
    rfl

/-- Dropping the emptiness filter under the length filter. -/
theorem candidates_filter_simp (l : List (List Char)) :
    ((l.map pyStrip).filter (fun b => !b.isEmpty)).filter (fun b => 10 < b.length) =
      (l.map pyStrip).filter (fun b => 10 < b.length) := by
  rw [List.filter_filter]
  apply List.filter_congr
  intro b hb
  by_cases h : 10 < b.length
  · have hne : b.isEmpty = false := by
      cases b with
      | nil => simp at h
      | cons x xs => rfl
    simp [h, hne]
  · simp [h]

/-- C8 (amended): the segmenter's output arises from a decomposition of the
document into ordered, non-overlapping candidate segments joined by newline
separators; each segment splits as whitespace + stripped core + whitespace, and
the output blocks are exactly the collapsed stripped cores longer than 10
characters — so every input character lies in exactly one candidate segment or
in a separator, but short candidates (length at most 10) are discarded whole. -/
theorem C8_amended_block_partition (t : List Char) :
    ∃ segs seps,
      interleave segs seps = t
      ∧ (∀ p ∈ seps, 1 ≤ p.length ∧ ∀ c ∈ p, c = '\n')
      ∧ (∀ s ∈ segs, ∃ pre suf, (∀ c ∈ pre, pyIsWs c = true) ∧ (∀ c ∈ suf, pyIsWs c = true)
          ∧ s = pre ++ pyStrip s ++ suf)
      ∧ make_blocks t = ((segs.map pyStrip).filter (fun b => 10 < b.length)).map collapseWs := by
  by_cases h : (primary_candidates t).length < 5
  · obtain ⟨seps, hsep, hjoin⟩ := splitNl_interleave t
    refine ⟨splitNl t, seps, hjoin, ?_, ?_, ?_⟩
    · intro p hp
      rw [hsep p hp]
      exact ⟨by decide, by intro c hc; simpa using hc⟩
    · intro s _
      exact pyStrip_decomposition s
    · unfold make_blocks
      rw [if_pos h]
      show ((fallback_candidates t).filter (fun b => 10 < b.length)).map collapseWs = _
      unfold fallback_candidates
      rw [candidates_filter_simp]
  · obtain ⟨seps, hsep, hjoin⟩ := splitBlankF_interleave t.length t (Nat.le_refl _)
    refine ⟨splitBlank t, seps, hjoin, ?_, ?_, ?_⟩
    · intro p hp
      obtain ⟨h1, h2⟩ := hsep p hp
      exact ⟨by omega, h2⟩
    · intro s _
      exact pyStrip_decomposition s
    · unfold make_blocks
      rw [if_neg h]
      show ((primary_candidates t).filter (fun b => 10 < b.length)).map collapseWs = _
      unfold primary_candidates
      rw [candidates_filter_simp]

/-- C8 counterexample: in "Hi there\n\nthis is a sufficiently long block" the
character 'H' is not whitespace yet belongs to no output block — the candidate
"Hi there" (8 characters) is discarded whole by the length filter, so the
block sequence does not account for every non-whitespace character. -/
theorem C8_block_partition_counterexample :
    make_blocks (chars "Hi there\n\nthis is a sufficiently long block") =
      [chars "this is a sufficiently long block"]
    ∧ 'H' ∈ chars "Hi there\n\nthis is a sufficiently long block"
    ∧ pyIsWs 'H' = false
    ∧ (∀ b ∈ make_blocks (chars "Hi there\n\nthis is a sufficiently long block"), 'H' ∉ b) := by
  exact ⟨by decide, by decide, by decide, by decide⟩
/-! ## Section classifier (`extract_job_sections_improved`, lines 128-307) -/

/-- Shorthand for a case-insensitive literal pattern. -/
def rlit (s : String) : RE :=
  RE.lit (chars s)

/-- `major_heading_patterns`, compiled as one ordered alternation. -/
def majorRe : RE :=
  altN
    [seqN [RE.opt (seqN [rlit "job", RE.wsPlus]),
       altN [rlit "responsibilities", rlit "qualifications", rlit "requirements",
         rlit "duties", rlit "skills", rlit "experience",
         seqN [rlit "what you", RE.dotRange 1 20, rlit "do"],
         rlit "key responsibilities", rlit "primary duties", rlit "job requirements",
         rlit "role responsibilities"]],
     seqN [altN [rlit "essential", rlit "minimum", rlit "required", rlit "basic",
         rlit "must have"], RE.wsPlus,
       altN [rlit "skills", rlit "qualifications", rlit "requirements", rlit "experience"]],
     seqN [altN [rlit "preferred", rlit "desired", rlit "nice to have", rlit "additional",
         rlit "bonus"], RE.wsPlus,
       altN [rlit "skills", rlit "qualifications", rlit "requirements", rlit "experience"]],
     seqN [altN [rlit "about", rlit "company", rlit "organization"], RE.wsPlus,
       RE.opt (seqN [rlit "the", RE.wsPlus]),
       altN [rlit "role", rlit "position", rlit "job", rlit "company", rlit "organization",
         rlit "team", rlit "us"]],
     seqN [RE.opt (seqN [rlit "job", RE.wsPlus]),
       altN [rlit "description", rlit "summary", rlit "overview"]],
     seqN [altN [rlit "technical", rlit "core", rlit "main"], RE.wsPlus,
       altN [rlit "skills", rlit "requirements", rlit "responsibilities"]]]

/-- `company_heading_patterns`, compiled as one ordered alternation. -/
def companyRe : RE :=
  altN
    [seqN [altN [rlit "company", rlit "about", rlit "organization", rlit "who are we",
       rlit "about us", rlit "our company", rlit "the company", rlit "about the company"],
       RE.wordB],
     seqN [RE.opt (seqN [rlit "company", RE.wsPlus]),
       altN [rlit "overview", rlit "description", rlit "profile", rlit "background",
         rlit "information"]],
     seqN [RE.opt (seqN [rlit "who", RE.wsPlus]), altN [rlit "we are", rlit "we are"]],
     seqN [RE.opt (seqN [rlit "our", RE.wsPlus]),
       altN [rlit "mission", rlit "vision", rlit "values", rlit "culture", rlit "story",
         rlit "background"]]]

/-- `required_patterns`, compiled as one ordered alternation. -/
def requiredRe : RE :=
  altN
    [seqN [altN [rlit "required", rlit "essential", rlit "minimum", rlit "must have",
       rlit "basic", rlit "mandatory"], RE.wsStar,
       altN [rlit "qualifications", rlit "skills", rlit "requirements", rlit "experience"]],
     seqN [RE.opt (seqN [rlit "you", RE.wsPlus]),
       altN [rlit "must", rlit "should", rlit "need to"], RE.wsPlus, rlit "have"],
     seqN [altN [rlit "minimum", rlit "required"], RE.wsStar,
       altN [rlit "requirements", rlit "qualifications"]],
     seqN [RE.wsStar, rlit "requirements", RE.wsStar, RE.opt (rlit ":"), RE.wsStar, RE.eol],
     seqN [RE.wsStar, rlit "qualifications", RE.wsStar, RE.opt (rlit ":"), RE.wsStar, RE.eol]]

/-- `preferred_patterns`, compiled as one ordered alternation. -/
def preferredRe : RE :=
  altN
    [seqN [altN [rlit "preferred", rlit "desired", rlit "nice to have", rlit "bonus",
       rlit "additional", rlit "plus", rlit "would be great"], RE.wsStar,
       altN [rlit "qualifications", rlit "skills", rlit "requirements", rlit "experience"]],
     seqN [altN [rlit "it would be", rlit "would be"], RE.wsPlus,
       altN [rlit "nice", rlit "great", rlit "a plus"]],
     seqN [altN [rlit "bonus", rlit "plus"], RE.wsPlus, altN [rlit "points", rlit "if you"]],
     seqN [altN [rlit "preferred", rlit "desired"], RE.wsStar,
       altN [rlit "requirements", rlit "qualifications"]]]

/-- Does a block match the major-heading alternation (all alternatives are
anchored, so only position 0 is relevant)? -/
def major_heading_found (b : List Char) : Bool :=
  reTest0 majorRe b

/-- Does a block match the company-heading alternation? -/
def company_heading_found (b : List Char) : Bool :=
  reTest0 companyRe b

/-- Does a block match the required-heading alternation? -/
def required_heading_found (b : List Char) : Bool :=
  reTest0 requiredRe b

/-- Does a block match the preferred-heading alternation? -/
def preferred_heading_found (b : List Char) : Bool :=
  reTest0 preferredRe b
/-- The strip set `" :\t\n-–—"` used on the text after a heading. -/
def heading_strip_chars : List Char :=
  [' ', ':', '\t', '\n', '-', '–', '—']

/-- Index of the first block matching a major heading (lines 167-171). -/
def first_major_idx (blocks : List (List Char)) : Option Nat :=
  blocks.findIdx? major_heading_found

/-- `" ".join(intro_blocks).strip()` where `intro_blocks` is everything before
the first major heading (all blocks when none matches). -/
def intro_text (blocks : List (List Char)) : List Char :=
  pyStrip (joinSp (match first_major_idx blocks with
    | none => blocks
    | some i => blocks.take i))

/-- `job_description` (the Summary section): the intro text, or None if empty. -/
def job_description (blocks : List (List Char)) : Option (List Char) :=
  if intro_text blocks = [] then none else some (intro_text blocks)

/-- Heading-based section scan shared by the Company/Required/Preferred
strategies (lines 180-206, 228-251, 272-293): find a heading block; if the
remainder of that block after the heading is longer than `minLen`, it is the
content; otherwise collect at most `cap` following blocks up to the first
block satisfying `stop`; when neither yields anything, keep scanning. -/
def section_scan (headRe : RE) (stop : List Char → Bool) (cap minLen : Nat) :
    List (List Char) → Option (List Char)
  | [] => none
  | b :: rest =>
    match reMatchEnd0 headRe b with
    | none => section_scan headRe stop cap minLen rest
    | some e =>
      let after := pyStripSet heading_strip_chars (b.drop e)
      if minLen < after.length then some after
      else
        let content := (rest.takeWhile (fun nb => !stop nb)).take cap
        if content.isEmpty then section_scan headRe stop cap minLen rest
        else some (pyStrip (joinSp content))

/-- Blocks that end the company-content collection (line 197-199). -/
def company_stop (b : List Char) : Bool :=
  major_heading_found b || company_heading_found b

/-- Blocks that end the required-content collection (lines 242-244). -/
def required_stop (b : List Char) : Bool :=
  major_heading_found b || required_heading_found b || preferred_heading_found b

/-- Blocks that end the preferred-content collection (lines 285-287). -/
def preferred_stop (b : List Char) : Bool :=
  major_heading_found b || preferred_heading_found b

/-- Company heading strategy (cap 4 blocks, minimum remainder length 20). -/
def company_scan : List (List Char) → Option (List Char) :=
  section_scan companyRe company_stop 4 20

/-- Required heading strategy (cap 5 blocks, minimum remainder length 15). -/
def required_scan : List (List Char) → Option (List Char) :=
  section_scan requiredRe required_stop 5 15

/-- Preferred heading strategy (cap 5 blocks, minimum remainder length 15). -/
def preferred_scan : List (List Char) → Option (List Char) :=
  section_scan preferredRe preferred_stop 5 15

/-- `company_keywords` (lines 210-214). -/
def company_keywords : List (List Char) :=
  [chars "founded", chars "established", chars "leading", chars "industry",
   chars "mission", chars "vision", chars "values", chars "culture", chars "team",
   chars "employees", chars "global", chars "international", chars "headquarters",
   chars "based in", chars "specialize", chars "focus on", chars "dedicated to"]

/-- `requirement_keywords` (lines 255-259). -/
def requirement_keywords : List (List Char) :=
  [chars "bachelor", chars "master", chars "degree", chars "years of experience",
   chars "experience in", chars "proficient", chars "knowledge of",
   chars "familiar with", chars "understanding of", chars "ability to",
   chars "must have", chars "required", chars "necessary"]

/-- `preferred_keywords` (lines 297-300). -/
def preferred_keywords : List (List Char) :=
  [chars "preferred", chars "desired", chars "nice to have", chars "bonus",
   chars "plus", chars "would be great", chars "additional experience",
   chars "advantageous"]

/-- Company keyword fallback (lines 216-223): first of the first 10 blocks with
at least 2 company keywords and more than 50 characters. -/
def company_fallback (blocks : List (List Char)) : Option (List Char) :=
  (blocks.take 10).find? (fun b =>
    (2 ≤ company_keywords.countP (fun kw => containsSub kw (pyLower b))) &&
    (50 < b.length))

/-- Required keyword fallback (lines 261-267). -/
def required_fallback (blocks : List (List Char)) : Option (List Char) :=
  blocks.find? (fun b =>
    (2 ≤ requirement_keywords.countP (fun kw => containsSub kw (pyLower b))) &&
    (30 < b.length))

/-- Preferred keyword fallback (lines 302-306): any single keyword suffices. -/
def preferred_fallback (blocks : List (List Char)) : Option (List Char) :=
  blocks.find? (fun b =>
    (preferred_keywords.any (fun kw => containsSub kw (pyLower b))) &&
    (30 < b.length))

/-- The company section result: heading strategy first; the keyword fallback
runs whenever the heading strategy left the value falsy (None or empty). -/
def company_description (blocks : List (List Char)) : Option (List Char) :=
  match company_scan blocks with
  | some c =>
    if c = [] then
      match company_fallback blocks with
      | some b => some b
      | none => some []
    else some c
  | none => company_fallback blocks

/-- The required-qualifications section result. -/
def required_qualifications (blocks : List (List Char)) : Option (List Char) :=
  match required_scan blocks with
  | some c =>
    if c = [] then
      match required_fallback blocks with
      | some b => some b
      | none => some []
    else some c
  | none => required_fallback blocks

/-- The preferred-qualifications section result. -/
def preferred_qualifications (blocks : List (List Char)) : Option (List Char) :=
  match preferred_scan blocks with
  | some c =>
    if c = [] then
      match preferred_fallback blocks with
      | some b => some b
      | none => some []
    else some c
  | none => preferred_fallback blocks
/-- Cutting a list at the first index whose element satisfies `p` is the same
as taking while `!p`. -/
theorem take_findIdx_eq_takeWhile (p : List Char → Bool) (blocks : List (List Char)) :
    (match blocks.findIdx? p with
     | none => blocks
     | some i => blocks.take i) = blocks.takeWhile (fun b => !p b) := by
  induction blocks with
  | nil => rfl
  | cons b bs ih =>
    rw [List.findIdx?_cons]
    cases hpb : p b with
    | true => simp [List.takeWhile_cons, hpb]
    | false =>
      rw [if_neg (by simp [hpb]), List.findIdx?_succ]
      rw [List.takeWhile_cons, if_pos (by simp [hpb])]
      cases hf : List.findIdx? p bs with
      | none =>
        simp only [hf] at ih
        simp only [hf, Option.map_none']
        exact congrArg (b :: ·) ih
      | some i =>
        simp only [hf] at ih
        simp only [hf, Option.map_some']
        rw [List.take_succ_cons]
        exact congrArg (b :: ·) ih

/-- C4: the Summary is the space-joined concatenation of all blocks strictly
preceding the first block matching a major heading pattern (the whole sequence
when none matches), and in particular with a non-heading first block and a
major-heading second block the Summary is exactly the first block's text. -/
theorem C4_summary_before_first_major_heading (blocks : List (List Char)) :
    (job_description blocks =
      (if pyStrip (joinSp (blocks.takeWhile (fun b => !major_heading_found b))) = [] then none
       else some (pyStrip (joinSp (blocks.takeWhile (fun b => !major_heading_found b))))))
    ∧ (∀ (b1 b2 : List Char) (rest : List (List Char)),
        major_heading_found b2 = true → major_heading_found b1 = false →
        job_description (b1 :: b2 :: rest) =
          (if pyStrip b1 = [] then none else some (pyStrip b1))) := by
  have hkey : ∀ bs : List (List Char), intro_text bs =
      pyStrip (joinSp (bs.takeWhile (fun b => !major_heading_found b))) := by
    intro bs
    unfold intro_text first_major_idx
    rw [take_findIdx_eq_takeWhile]
  constructor
  · unfold job_description
    rw [hkey]
  · intro b1 b2 rest h2 h1
    unfold job_description
    rw [hkey]
    have ht : (b1 :: b2 :: rest).takeWhile (fun b => !major_heading_found b) = [b1] := by
      rw [List.takeWhile_cons, if_pos (by simp [h1]), List.takeWhile_cons,
        if_neg (by simp [h2])]
    rw [ht]
    have hj : joinSp [b1] = b1 := by simp [joinSp, List.intercalate]
    rw [hj]

/-- Witness for C4 on the spec's example: second block starts with
"Responsibilities", so the Summary is exactly the first block. -/
theorem C4_summary_before_first_major_heading_witness :
    job_description [chars "We build planning tools for teams",
      chars "Responsibilities: own the roadmap and deliverables"] =
      some (chars "We build planning tools for teams") := by
  have h := (C4_summary_before_first_major_heading
      [chars "We build planning tools for teams",
       chars "Responsibilities: own the roadmap and deliverables"]).2
    (chars "We build planning tools for teams")
    (chars "Responsibilities: own the roadmap and deliverables") []
    (by decide) (by decide)
  rw [h]
  decide
/-- A block matching any tracked heading kind. -/
def tracked_heading (b : List Char) : Bool :=
  major_heading_found b || company_heading_found b || required_heading_found b ||
    preferred_heading_found b

/-- The heading-based content rule exactly as claim C5 words it: the first
block matching the section's heading pattern decides; when its remainder is
not substantial, the content is the concatenation of the blocks collected
until a block matching another tracked heading kind or the cap — even when
that collection is empty. -/
def section_content_claim (headRe : RE) (cap minLen : Nat) :
    List (List Char) → Option (List Char)
  | [] => none
  | b :: rest =>
    match reMatchEnd0 headRe b with
    | none => section_content_claim headRe cap minLen rest
    | some e =>
      let after := pyStripSet heading_strip_chars (b.drop e)
      if minLen < after.length then some after
      else some (pyStrip (joinSp ((rest.takeWhile (fun nb => !tracked_heading nb)).take cap)))

/-- C5 counterexample: in ["About us", "Mission: we do analytics consulting
work here daily"] the first company-heading block is "About us", its remainder
"us" is short, and its collection is empty (the next block is itself a company
heading), so the claim's rule yields empty content — but the code skips on and
extracts the remainder of the second heading block; and in ["Preferred
Skills", "Mandatory Qualifications: 5 years"] the preferred collection does
not stop at the required-heading block although required is a tracked heading
kind, because the code's preferred stop set is only major/preferred. -/
theorem C5_section_content_counterexample :
    company_scan [chars "About us", chars "Mission: we do analytics consulting work here daily"] =
      some (chars "we do analytics consulting work here daily")
    ∧ section_content_claim companyRe 4 20
        [chars "About us", chars "Mission: we do analytics consulting work here daily"] =
      some []
    ∧ company_scan [chars "About us", chars "Mission: we do analytics consulting work here daily"] ≠
      section_content_claim companyRe 4 20
        [chars "About us", chars "Mission: we do analytics consulting work here daily"]
    ∧ preferred_scan [chars "Preferred Skills", chars "Mandatory Qualifications: 5 years"] =
      some (chars "Mandatory Qualifications: 5 years")
    ∧ section_content_claim preferredRe 5 15
        [chars "Preferred Skills", chars "Mandatory Qualifications: 5 years"] = some []
    ∧ preferred_scan [chars "Preferred Skills", chars "Mandatory Qualifications: 5 years"] ≠
      section_content_claim preferredRe 5 15
        [chars "Preferred Skills", chars "Mandatory Qualifications: 5 years"] := by
  exact ⟨by decide, by decide, by decide, by decide, by decide, by decide⟩

/-- Does a block qualify to decide a section: it matches the heading pattern
and yields either a substantial remainder or a nonempty collection. -/
def scan_qualifies (headRe : RE) (stop : List Char → Bool) (cap minLen : Nat)
    (b : List Char) (rest : List (List Char)) : Bool :=
  match reMatchEnd0 headRe b with
  | none => false
  | some e =>
    (minLen < (pyStripSet heading_strip_chars (b.drop e)).length) ||
    !((rest.takeWhile (fun nb => !stop nb)).take cap).isEmpty

/-- The content a qualifying block yields: the stripped remainder when it is
substantial, otherwise the joined collection up to the stop predicate or cap. -/
def scan_content (headRe : RE) (stop : List Char → Bool) (cap minLen : Nat)
    (b : List Char) (rest : List (List Char)) : Option (List Char) :=
  match reMatchEnd0 headRe b with
  | none => none
  | some e =>
    let after := pyStripSet heading_strip_chars (b.drop e)
    if minLen < after.length then some after
    else some (pyStrip (joinSp ((rest.takeWhile (fun nb => !stop nb)).take cap)))


/-- Unfolding equation of `section_scan` when the head block has no heading. -/
theorem section_scan_cons_none {headRe : RE} {stop : List Char → Bool} {cap minLen : Nat}
    {b : List Char} {bs : List (List Char)} (hm : reMatchEnd0 headRe b = none) :
    section_scan headRe stop cap minLen (b :: bs) = section_scan headRe stop cap minLen bs := by
  conv_lhs => unfold section_scan
  rw [hm]

/-- Unfolding equation of `section_scan` when the head block has a heading. -/
theorem section_scan_cons_some {headRe : RE} {stop : List Char → Bool} {cap minLen : Nat}
    {b : List Char} {bs : List (List Char)} {e : Nat} (hm : reMatchEnd0 headRe b = some e) :
    section_scan headRe stop cap minLen (b :: bs) =
      (if minLen < (pyStripSet heading_strip_chars (b.drop e)).length then
        some (pyStripSet heading_strip_chars (b.drop e))
       else if ((bs.takeWhile (fun nb => !stop nb)).take cap).isEmpty then
        section_scan headRe stop cap minLen bs
       else some (pyStrip (joinSp ((bs.takeWhile (fun nb => !stop nb)).take cap)))) := by
  conv_lhs => unfold section_scan
  rw [hm]

/-- Unfolding equation of `scan_qualifies` with no heading. -/
theorem scan_qualifies_none {headRe : RE} {stop : List Char → Bool} {cap minLen : Nat}
    {b : List Char} {rest : List (List Char)} (hm : reMatchEnd0 headRe b = none) :
    scan_qualifies headRe stop cap minLen b rest = false := by
  unfold scan_qualifies
  rw [hm]

/-- Unfolding equation of `scan_qualifies` with a heading. -/
theorem scan_qualifies_some {headRe : RE} {stop : List Char → Bool} {cap minLen : Nat}
    {b : List Char} {rest : List (List Char)} {e : Nat} (hm : reMatchEnd0 headRe b = some e) :
    scan_qualifies headRe stop cap minLen b rest =
      ((minLen < (pyStripSet heading_strip_chars (b.drop e)).length : Bool) ||
        !((rest.takeWhile (fun nb => !stop nb)).take cap).isEmpty) := by
  unfold scan_qualifies
  rw [hm]

/-- Unfolding equation of `scan_content` with a heading. -/
theorem scan_content_some {headRe : RE} {stop : List Char → Bool} {cap minLen : Nat}
    {b : List Char} {rest : List (List Char)} {e : Nat} (hm : reMatchEnd0 headRe b = some e) :
    scan_content headRe stop cap minLen b rest =
      (if minLen < (pyStripSet heading_strip_chars (b.drop e)).length then
        some (pyStripSet heading_strip_chars (b.drop e))
       else some (pyStrip (joinSp ((rest.takeWhile (fun nb => !stop nb)).take cap)))) := by
  unfold scan_content
  rw [hm]

/-- The recursive section scan equals its declarative description: the first
index whose block qualifies determines the section content. -/
theorem section_scan_spec (headRe : RE) (stop : List Char → Bool) (cap minLen : Nat)
    (blocks : List (List Char)) :
    section_scan headRe stop cap minLen blocks =
      (match (List.range blocks.length).find? (fun i =>
          scan_qualifies headRe stop cap minLen (blocks.getD i []) (blocks.drop (i + 1))) with
       | none => none
       | some i => scan_content headRe stop cap minLen (blocks.getD i []) (blocks.drop (i + 1))) := by
  induction blocks with
  | nil => rfl
  | cons b bs ih =>
    rw [List.length_cons, List.range_succ_eq_map]
    rw [List.find?_cons]
    have hgd0 : (b :: bs).getD 0 [] = b := rfl
    have hdr0 : (b :: bs).drop (0 + 1) = bs := rfl
    cases hq : scan_qualifies headRe stop cap minLen b bs with
    | true =>
      have hq0 : scan_qualifies headRe stop cap minLen ((b :: bs).getD 0 [])
          ((b :: bs).drop (0 + 1)) = true := by
        rw [hgd0, hdr0]
        exact hq
      simp only [hq0]
      rw [hgd0, hdr0]
      cases hm : reMatchEnd0 headRe b with
      | none => rw [scan_qualifies_none hm] at hq; exact absurd hq (by simp)
      | some e =>
        rw [section_scan_cons_some hm, scan_content_some hm]
        by_cases hlen : minLen < (pyStripSet heading_strip_chars (b.drop e)).length
        · rw [if_pos hlen, if_pos hlen]
        · rw [if_neg hlen, if_neg hlen]
          have hne : ((bs.takeWhile (fun nb => !stop nb)).take cap).isEmpty = false := by
            rw [scan_qualifies_some hm] at hq
            rw [decide_eq_false hlen] at hq
            simpa using hq
          rw [if_neg (by simp [hne])]
    | false =>
      have hq0 : scan_qualifies headRe stop cap minLen ((b :: bs).getD 0 [])
          ((b :: bs).drop (0 + 1)) = false := by
        rw [hgd0, hdr0]
        exact hq
      simp only [hq0]
      rw [List.find?_map]
      have hmap : ((fun i => scan_qualifies headRe stop cap minLen ((b :: bs).getD i [])
            ((b :: bs).drop (i + 1))) ∘ Nat.succ) =
          (fun i => scan_qualifies headRe stop cap minLen (bs.getD i []) (bs.drop (i + 1))) := rfl
      rw [hmap]
      have hlhs : section_scan headRe stop cap minLen (b :: bs) =
          section_scan headRe stop cap minLen bs := by
        cases hm : reMatchEnd0 headRe b with
        | none => exact section_scan_cons_none hm
        | some e =>
          rw [scan_qualifies_some hm] at hq
          rw [section_scan_cons_some hm]
          by_cases hlen : minLen < (pyStripSet heading_strip_chars (b.drop e)).length
          · rw [decide_eq_true hlen] at hq
            simp at hq
          · rw [if_neg hlen]
            have hemp : ((bs.takeWhile (fun nb => !stop nb)).take cap).isEmpty = true := by
              rw [decide_eq_false hlen] at hq
              simpa using hq
            rw [if_pos hemp]
      rw [hlhs, ih]
      cases hf : (List.range bs.length).find? (fun i =>
          scan_qualifies headRe stop cap minLen (bs.getD i []) (bs.drop (i + 1))) with
      | none => simp
      | some i =>
        simp only [Option.map_some']
        have hgd : (b :: bs).getD (i + 1) [] = bs.getD i [] := rfl
        have hdr : (b :: bs).drop (i + 1 + 1) = bs.drop (i + 1) := rfl
        rw [hgd, hdr]

/-- C5 (amended): for each of the Company, Required and Preferred sections the
heading-based content is decided by the first block that matches the section's
heading pattern AND yields content (substantial remainder or nonempty
collection) — a heading block yielding neither is skipped; the remainder is the
content when longer than the minimum (20 for Company, 15 otherwise), else the
collected blocks are joined, where Company collection stops at major/company
headings with cap 4, Required stops at major/required/preferred headings with
cap 5, and Preferred stops at major/preferred headings with cap 5. -/
theorem C5_amended_section_content (blocks : List (List Char)) :
    company_scan blocks =
      (match (List.range blocks.length).find? (fun i =>
          scan_qualifies companyRe company_stop 4 20 (blocks.getD i []) (blocks.drop (i + 1))) with
       | none => none
       | some i =>
         scan_content companyRe company_stop 4 20 (blocks.getD i []) (blocks.drop (i + 1)))
    ∧ required_scan blocks =
      (match (List.range blocks.length).find? (fun i =>
          scan_qualifies requiredRe required_stop 5 15 (blocks.getD i []) (blocks.drop (i + 1))) with
       | none => none
       | some i =>
         scan_content requiredRe required_stop 5 15 (blocks.getD i []) (blocks.drop (i + 1)))
    ∧ preferred_scan blocks =
      (match (List.range blocks.length).find? (fun i =>
          scan_qualifies preferredRe preferred_stop 5 15 (blocks.getD i []) (blocks.drop (i + 1))) with
       | none => none
       | some i =>
         scan_content preferredRe preferred_stop 5 15 (blocks.getD i []) (blocks.drop (i + 1))) :=
  ⟨section_scan_spec companyRe company_stop 4 20 blocks,
   section_scan_spec requiredRe required_stop 5 15 blocks,
   section_scan_spec preferredRe preferred_stop 5 15 blocks⟩

/-- C6 counterexample: in ["About us", "Requirements", "we were founded decades
ago and our team spans the industry globally"] a company heading IS found
("About us"), yet heading-based detection yields nothing and the keyword
fallback supplies the result — the fallback is not consulted "only when no
heading is found". -/
theorem C6_fallback_counterexample :
    company_heading_found (chars "About us") = true
    ∧ company_scan [chars "About us", chars "Requirements",
        chars "we were founded decades ago and our team spans the industry globally"] = none
    ∧ company_fallback [chars "About us", chars "Requirements",
        chars "we were founded decades ago and our team spans the industry globally"] =
        some (chars "we were founded decades ago and our team spans the industry globally")
    ∧ company_description [chars "About us", chars "Requirements",
        chars "we were founded decades ago and our team spans the industry globally"] =
        some (chars "we were founded decades ago and our team spans the industry globally") := by
  exact ⟨by decide, by decide, by decide, by decide⟩

/-- C6 (amended): for each section, heading-based content, when non-empty, is
the final result and the keyword fallback never overrides it; the fallback is
consulted exactly when the heading scan yields nothing or an empty string. -/
theorem C6_amended_fallback_consultation (blocks : List (List Char)) :
    (∀ c, company_scan blocks = some c → c ≠ [] → company_description blocks = some c)
    ∧ (company_scan blocks = none → company_description blocks = company_fallback blocks)
    ∧ (company_scan blocks = some [] → company_description blocks =
        (match company_fallback blocks with | some b => some b | none => some []))
    ∧ (∀ c, required_scan blocks = some c → c ≠ [] → required_qualifications blocks = some c)
    ∧ (required_scan blocks = none → required_qualifications blocks = required_fallback blocks)
    ∧ (required_scan blocks = some [] → required_qualifications blocks =
        (match required_fallback blocks with | some b => some b | none => some []))
    ∧ (∀ c, preferred_scan blocks = some c → c ≠ [] → preferred_qualifications blocks = some c)
    ∧ (preferred_scan blocks = none → preferred_qualifications blocks = preferred_fallback blocks)
    ∧ (preferred_scan blocks = some [] → preferred_qualifications blocks =
        (match preferred_fallback blocks with | some b => some b | none => some [])) := by
  refine ⟨?_, ?_, ?_, ?_, ?_, ?_, ?_, ?_, ?_⟩
  · intro c hscan hne
    unfold company_description
    simp only [hscan]
    rw [if_neg hne]
  · intro hscan
    unfold company_description
    simp only [hscan]
  · intro hscan
    unfold company_description
    simp only [hscan]
    rw [if_pos trivial]
  · intro c hscan hne
    unfold required_qualifications
    simp only [hscan]
    rw [if_neg hne]
  · intro hscan
    unfold required_qualifications
    simp only [hscan]
  · intro hscan
    unfold required_qualifications
    simp only [hscan]
    rw [if_pos trivial]
  · intro c hscan hne
    unfold preferred_qualifications
    simp only [hscan]
    rw [if_neg hne]
  · intro hscan
    unfold preferred_qualifications
    simp only [hscan]
  · intro hscan
    unfold preferred_qualifications
    simp only [hscan]
    rw [if_pos trivial]

/-- Witness for the amended C6: non-empty heading content is the final result. -/
theorem C6_amended_fallback_consultation_witness :
    company_description
        [chars "About us", chars "Mission: we do analytics consulting work here daily"] =
      some (chars "we do analytics consulting work here daily") := by
  exact (C6_amended_fallback_consultation
      [chars "About us", chars "Mission: we do analytics consulting work here daily"]).1
    (chars "we do analytics consulting work here daily") (by decide) (by decide)

/-! ## Skill aggregation (`main_enrichment`, lines 75-98) -/

/-- A taxonomy row of `SKILL_DB`: canonical skill name and type string. -/
structure SkillInfo where
  skill_name : List Char
  skill_type : List Char

/-- Surviving full-match ids gathered over all eligible sentences of a
document, in order (the `full_matches` list of the per-row loop). -/
def full_matches_of {S : Type} (db : Nat → SkillInfo) (job_desc : List Char)
    (eligible : S → Bool) (annotate : S → List Nat × List Nat)
    (sentences : List S) : List Nat :=
  (sentences.filter eligible).flatMap
    (fun sent => (annotate sent).1.filter (fun id => !should_remove (db id).skill_name job_desc))

/-- Surviving scored n-gram ids gathered over all eligible sentences. -/
def ngram_scored_of {S : Type} (db : Nat → SkillInfo) (job_desc : List Char)
    (eligible : S → Bool) (annotate : S → List Nat × List Nat)
    (sentences : List S) : List Nat :=
  (sentences.filter eligible).flatMap
    (fun sent => (annotate sent).2.filter (fun id => !should_remove (db id).skill_name job_desc))

/-- `set(full_matches + ngram_scored)`: the deduplicated union of both
candidate id lists. -/
def unique_skill_ids (full ngram : List Nat) : List Nat :=
  (full ++ ngram).dedup

/-- The Hard-skill names of the deduplicated ids (`skill_type == 'Hard Skill'`). -/
def hard_skills (db : Nat → SkillInfo) (full ngram : List Nat) : List (List Char) :=
  ((unique_skill_ids full ngram).filter
    (fun id => (db id).skill_type = chars "Hard Skill")).map (fun id => (db id).skill_name)

/-- The Soft-skill names of the deduplicated ids (`skill_type == 'Soft Skill'`). -/
def soft_skills (db : Nat → SkillInfo) (full ngram : List Nat) : List (List Char) :=
  ((unique_skill_ids full ngram).filter
    (fun id => (db id).skill_type = chars "Soft Skill")).map (fun id => (db id).skill_name)

/-- C9: candidate ids are deduplicated by id across full and n-gram matches (a
skill found both ways counts once) before the Hard/Soft partition, and
annotating a duplicated sentence list yields the same Hard and Soft skill sets
as annotating it once. -/
theorem C9_skill_aggregation_idempotent {S : Type} (db : Nat → SkillInfo)
    (job_desc : List Char) (eligible : S → Bool) (annotate : S → List Nat × List Nat)
    (sentences : List S) :
    (∀ (id : Nat) (full ngram : List Nat), id ∈ full → id ∈ ngram →
      (unique_skill_ids full ngram).count id = 1)
    ∧ (∀ name, name ∈ hard_skills db
          (full_matches_of db job_desc eligible annotate (sentences ++ sentences))
          (ngram_scored_of db job_desc eligible annotate (sentences ++ sentences)) ↔
        name ∈ hard_skills db
          (full_matches_of db job_desc eligible annotate sentences)
          (ngram_scored_of db job_desc eligible annotate sentences))
    ∧ (∀ name, name ∈ soft_skills db
          (full_matches_of db job_desc eligible annotate (sentences ++ sentences))
          (ngram_scored_of db job_desc eligible annotate (sentences ++ sentences)) ↔
        name ∈ soft_skills db
          (full_matches_of db job_desc eligible annotate sentences)
          (ngram_scored_of db job_desc eligible annotate sentences)) := by
  refine ⟨?_, ?_, ?_⟩
  · intro id full ngram hf _
    apply List.count_eq_one_of_mem (List.nodup_dedup _)
    rw [List.mem_dedup]
    exact List.mem_append_left _ hf
  · intro name
    simp only [hard_skills, unique_skill_ids, full_matches_of, ngram_scored_of,
      List.mem_map, List.mem_filter, List.mem_dedup, List.mem_append,
      List.filter_append, List.flatMap_append]
    constructor
    · rintro ⟨id, ⟨hmem, htype⟩, hname⟩
      exact ⟨id, ⟨by tauto, htype⟩, hname⟩
    · rintro ⟨id, ⟨hmem, htype⟩, hname⟩
      exact ⟨id, ⟨by tauto, htype⟩, hname⟩
  · intro name
    simp only [soft_skills, unique_skill_ids, full_matches_of, ngram_scored_of,
      List.mem_map, List.mem_filter, List.mem_dedup, List.mem_append,
      List.filter_append, List.flatMap_append]
    constructor
    · rintro ⟨id, ⟨hmem, htype⟩, hname⟩
      exact ⟨id, ⟨by tauto, htype⟩, hname⟩
    · rintro ⟨id, ⟨hmem, htype⟩, hname⟩
      exact ⟨id, ⟨by tauto, htype⟩, hname⟩

/-- Witness for C9: id 5 appearing as both a full match and an n-gram match
counts exactly once after deduplication. -/
theorem C9_skill_aggregation_idempotent_witness :
    (unique_skill_ids [5, 7] [5]).count 5 = 1 := by
  exact (C9_skill_aggregation_idempotent (S := Nat)
      (fun _ => ⟨chars "python", chars "Hard Skill"⟩) (chars "")
      (fun _ => true) (fun _ => ([], [])) []).1 5 [5, 7] [5] (by decide) (by decide)

/-! ## Title normalizer (C10; no implementation exists under `src/`) -/

/-- Modelled from the spec: the salary-related fields of the output record of
the Title Normalizer (mapped canonical title, mean/median/p10/p90 salary,
sample count). -/
structure SalaryRecord where
  mapped_title : Option (List Char)
  mean_salary : Option ℚ
  median_salary : Option ℚ
  p10_salary : Option ℚ
  p90_salary : Option ℚ
  sample_count : Option Nat
deriving DecidableEq

/-- Modelled from the spec: pick the single best-scoring canonical title under
the token-order-insensitive similarity scorer. -/
def best_title_match (score : List Char → List Char → Nat) (canon : List (List Char))
    (raw : List Char) : Option (List Char × Nat) :=
  canon.foldl (fun acc c =>
    match acc with
    | none => some (c, score raw c)
    | some bs => if score raw c > bs.2 then some (c, score raw c) else some bs) none

/-- Modelled from the spec: expand the salary histogram into a weighted sample
(each bucket value repeated by its occurrence count). -/
def expand_histogram (hist : List (ℚ × Nat)) : List ℚ :=
  hist.flatMap (fun bc => List.replicate bc.2 bc.1)

/-- Modelled from the spec: nearest-rank percentile of a sample. -/
def nearest_rank (l : List ℚ) (p : Nat) : Option ℚ :=
  (l.filter (fun v => p * l.length ≤ 100 * l.countP (fun w => w ≤ v))).min?

/-- Modelled from the spec: round to two decimal places. -/
def round2 (x : ℚ) : ℚ :=
  (round (x * 100) : ℤ) / 100

/-- Modelled from the spec (the repository has no Title Normalizer code under
`src/`): fuzzy-match a raw title against the canonical list; a best score
below the acceptance threshold is a hard gate leaving the mapped title and all
salary fields null; on acceptance with a nonempty histogram, report the
monthly PPP-adjusted mean, median and 10th/90th percentiles of the expanded
sample together with the sample count. -/
def normalize_title (score : List Char → List Char → Nat) (canon : List (List Char))
    (threshold : Nat) (hist : List Char → List (ℚ × Nat)) (ppp : ℚ)
    (raw : List Char) : SalaryRecord :=
  match best_title_match score canon raw with
  | none => ⟨none, none, none, none, none, none⟩
  | some bs =>
    if bs.2 < threshold then ⟨none, none, none, none, none, none⟩
    else
      let sample := expand_histogram (hist bs.1)
      if sample.isEmpty then ⟨some bs.1, none, none, none, none, none⟩
      else
        let adjust := fun x => round2 (x / 12 * ppp)
        ⟨some bs.1,
         some (adjust (sample.sum / sample.length)),
         (nearest_rank sample 50).map adjust,
         (nearest_rank sample 10).map adjust,
         (nearest_rank sample 90).map adjust,
         some sample.length⟩

/-- C10: a raw title whose best fuzzy score is below the acceptance threshold
yields a record with the mapped title and every salary field null — the
threshold is a hard gate and the unmatched title is an ordinary result, not an
error (the function is total). -/
theorem C10_title_threshold_gate (score : List Char → List Char → Nat)
    (canon : List (List Char)) (threshold : Nat) (hist : List Char → List (ℚ × Nat))
    (ppp : ℚ) (raw : List Char) :
    (best_title_match score canon raw = none →
      normalize_title score canon threshold hist ppp raw =
        ⟨none, none, none, none, none, none⟩)
    ∧ (∀ c s, best_title_match score canon raw = some (c, s) → s < threshold →
      normalize_title score canon threshold hist ppp raw =
        ⟨none, none, none, none, none, none⟩) := by
  constructor
  · intro h
    unfold normalize_title
    simp only [h]
  · intro c s h hlt
    unfold normalize_title
    simp only [h]
    rw [if_pos hlt]

/-- Witness for C10: with a scorer that rates every pair 10 and threshold 70,
the record is fully null. -/
theorem C10_title_threshold_gate_witness :
    normalize_title (fun _ _ => 10) [chars "data scientist"] 70 (fun _ => [(1000, 2)]) 1
      (chars "underwater basket weaver") = ⟨none, none, none, none, none, none⟩ := by
  exact (C10_title_threshold_gate (fun _ _ => 10) [chars "data scientist"] 70
      (fun _ => [(1000, 2)]) 1 (chars "underwater basket weaver")).2
    (chars "data scientist") 10 (by decide) (by decide)
